import Mathlib

/-!
Verification of the heading-extraction / slug-assignment / active-section
core of the `docuementation-mongodb` repository.

Strings are modelled as `List Char`.  The JavaScript sources embedded here:

* `src/src/app/components/Right.sidebar.jsx` — `slugify`,
  `extractHeadingsFromMarkdown`, the scroll handler and the click handler;
* the markdown renderer component (`src/unnamed/part_005`) — the
  `headingIds` map built with `idCounts` and `getHeadingId`;
* `src/src/app/lib/mark.down.js` — `getMarkdownContent`.

Regular-expression operations are translated to explicit list functions;
each definition's doc comment quotes the regex it implements.  Character
classes cover the ASCII range, which is the range the repository's
markdown content and heading texts use.
-/

/-- JavaScript `\s` (and `String.prototype.trim`) whitespace, ASCII range:
space, tab, newline, carriage return, vertical tab, form feed. -/
def isWs (c : Char) : Bool :=
  c == ' ' || c == '\t' || c == '\n' || c == '\r' || c == '\x0B' || c == '\x0C'

/-- JavaScript `\w`: ASCII letters, digits and underscore. -/
def isWordChar (c : Char) : Bool :=
  (decide ('a' ≤ c) && decide (c ≤ 'z')) ||
  (decide ('A' ≤ c) && decide (c ≤ 'Z')) ||
  (decide ('0' ≤ c) && decide (c ≤ '9')) ||
  c == '_'

/-- JavaScript `String.prototype.toLowerCase` on one character (ASCII case). -/
def jsToLower (c : Char) : Char :=
  if 'A' ≤ c ∧ c ≤ 'Z' then Char.ofNat (c.toNat + 32) else c

/-- JavaScript `String.prototype.trim`: strip leading and trailing whitespace. -/
def jsTrim (l : List Char) : List Char :=
  ((l.dropWhile isWs).reverse.dropWhile isWs).reverse

/-- `.replace(/\s+/g, "-")`: each maximal run of whitespace becomes one hyphen. -/
def replaceWsRuns : List Char → List Char
  | [] => []
  | [c] => if isWs c then ['-'] else [c]
  | c :: d :: rest =>
    if isWs c then
      if isWs d then replaceWsRuns (d :: rest)
      else '-' :: replaceWsRuns (d :: rest)
    else c :: replaceWsRuns (d :: rest)

/-- `.replace(/[^\w\-]/g, "")`: keep only word characters and hyphens. -/
def removeNonWord (l : List Char) : List Char :=
  l.filter (fun c => isWordChar c || c == '-')

/-- Worker for `collapseHyphens`: `prev` records whether the previously kept
character was part of a hyphen run, so only the first hyphen of each run is
emitted. -/
def collapseAux : Bool → List Char → List Char
  | _, [] => []
  | prev, c :: rest =>
    if c == '-' then
      if prev then collapseAux true rest
      else '-' :: collapseAux true rest
    else c :: collapseAux false rest

/-- `.replace(/\-\-+/g, "-")`: each maximal run of two or more hyphens becomes
a single hyphen (equivalently: every maximal hyphen run is emitted once). -/
def collapseHyphens (l : List Char) : List Char :=
  collapseAux false l

/-- `slugify` from `Right.sidebar.jsx` lines 7–15 (identical copy in the
markdown renderer):
`text.toString().toLowerCase().trim().replace(/\s+/g, "-")
 .replace(/[^\w\-]/g, "").replace(/\-\-+/g, "-")`. -/
def slugify (text : List Char) : List Char :=
  collapseHyphens (removeNonWord (replaceWsRuns (jsTrim (text.map jsToLower))))

/-- ECMAScript `LineTerminator`, ASCII range: line feed and carriage return.
(The non-ASCII terminators U+2028 and U+2029 are outside the character scope
of this development.)  In a multiline regex, `.` never matches a line
terminator, `$` matches before one, and `^` matches after one. -/
def isLineTerm (c : Char) : Bool :=
  c == '\n' || c == '\r'

/-- One attempt of `/^(#{1,4})\s+(.+)$/` at the head of `s`, which the caller
guarantees is a line start.  Returns `(level, text, rest-after-match)`.
Semantics, following the JavaScript engine:
* `#{1,4}` then `\s+` succeeds only when the full run of leading `#` has
  length 1–4 and is followed by a whitespace character (backtracking inside a
  longer hash run always lands on another `#`);
* `\s+` is greedy and may span line terminators; `.` never matches a line
  terminator; `$` (multiline) holds before a line terminator or at the end,
  so after a maximal terminator-free run `(.+)` it holds automatically;
* when everything after the hashes is whitespace, `\s+` backtracks until
  `(.+)` can start on a whitespace character that is not a line terminator,
  keeping at least one character inside `\s+`. -/
def tryMatch (s : List Char) : Option (Nat × List Char × List Char) :=
  let k := (s.takeWhile (fun c => c == '#')).length
  if 1 ≤ k ∧ k ≤ 4 then
    let afterHash := s.dropWhile (fun c => c == '#')
    match afterHash with
    | [] => none
    | c :: _ =>
      if isWs c then
        match afterHash.dropWhile isWs with
        | r :: rs =>
          some (k, (r :: rs).takeWhile (fun c => !(isLineTerm c)),
                (r :: rs).dropWhile (fun c => !(isLineTerm c)))
        | [] =>
          let w2 := (afterHash.reverse.dropWhile isLineTerm).reverse
          match w2.getLast? with
          | some cl =>
            if 2 ≤ w2.length then some (k, [cl], afterHash.drop w2.length)
            else none
          | none => none
      else none
  else none

/-- Advance past the current line: drop everything up to and including the
next line terminator.  After a failed attempt the multiline `^` anchor only
allows the next match to start right after a line terminator (a line feed or
a carriage return; in `\r\n` the position between the two is also tried, and
the attempt starting at the `\n` simply fails). -/
def dropLine (s : List Char) : List Char :=
  (s.dropWhile (fun c => !(isLineTerm c))).drop 1

/-- The `while ((match = headingRegex.exec(markdown)) !== null)` loop.  Each
iteration either records a match and resumes after it, or moves to the next
line.  `fuel` only bounds the number of iterations; every iteration consumes
at least one character, so `s.length` iterations always suffice (see
`scanHeadings`). -/
def scanHeadingsAux : Nat → List Char → List (Nat × List Char)
  | 0, _ => []
  | fuel + 1, s =>
    match tryMatch s with
    | some (k, text, rest) => (k, text) :: scanHeadingsAux fuel (dropLine rest)
    | none =>
      match s with
      | [] => []
      | _ :: _ => scanHeadingsAux fuel (dropLine s)

/-- All matches of `/^(#{1,4})\s+(.+)$/gm` over the document, in order, as
`(level, text)` pairs. -/
def scanHeadings (s : List Char) : List (Nat × List Char) :=
  scanHeadingsAux s.length s

/-- One entry of the heading list: `{ id, text, level }` as pushed by
`extractHeadingsFromMarkdown`. -/
structure Heading where
  id : List Char
  text : List Char
  level : Nat
deriving DecidableEq, Repr

/-- `extractHeadingsFromMarkdown` from `Right.sidebar.jsx` lines 17–35:
for every regex match, `level = match[1].length`, `text = match[2]`,
`id = slugify(text)`.  There is no collision bookkeeping in this function. -/
def extractHeadingsFromMarkdown (markdown : List Char) : List Heading :=
  (scanHeadings markdown).map (fun p => { id := slugify p.2, text := p.2, level := p.1 })

/-- Lookup in a JavaScript-object model: newest binding first.  Updating a
key conses a fresh binding, so the most recent assignment wins, exactly the
observable behaviour of `obj[key] = v` followed by `obj[key]`. -/
def alistGet {β : Type} : List (List Char × β) → List Char → Option β
  | [], _ => none
  | (k, v) :: rest, key => if k = key then some v else alistGet rest key

/-- The body of the renderer's `while ((match = headingRegex.exec(content)))`
loop (markdown renderer, `headingIds` effect): for each heading text, derive
the base slug; on a repeat of the base slug bump `idCounts[id]` and append
`-${idCounts[id]}`; record `ids[text] = id`, overwriting any earlier binding
for the same text. -/
def buildHeadingIdsLoop :
    List (Nat × List Char) → List (List Char × Nat) → List (List Char × List Char) →
    List (List Char × List Char)
  | [], _, ids => ids
  | (_, text) :: rest, idCounts, ids =>
    let s := slugify text
    match alistGet idCounts s with
    | some n =>
      buildHeadingIdsLoop rest ((s, n + 1) :: idCounts)
        ((text, s ++ '-' :: Nat.toDigits 10 (n + 1)) :: ids)
    | none =>
      buildHeadingIdsLoop rest ((s, 0) :: idCounts) ((text, s) :: ids)

/-- The renderer's `headingIds` map for a document. -/
def buildHeadingIds (content : List Char) : List (List Char × List Char) :=
  buildHeadingIdsLoop (scanHeadings content) [] []

/-- `getHeadingId` from the markdown renderer:
`headingIds[text] || slugify(text)`. -/
def getHeadingId (ids : List (List Char × List Char)) (text : List Char) : List Char :=
  match alistGet ids text with
  | some v => v
  | none => slugify text

/-- The sequence of `id` attributes the renderer assigns to its rendered
h1–h4 elements, in document order: each heading's extracted text is passed
through `getHeadingId` against the document's `headingIds` map.  The rendered
heading occurrences are modelled by the same heading scan; for plain ATX
headings (the inputs used below) the markdown renderer produces exactly one
element per scanned heading with that text. -/
def rendererHeadingIds (content : List Char) : List (List Char) :=
  (scanHeadings content).map (fun p => getHeadingId (buildHeadingIds content) p.2)

/-- The sequence of ids the Heading Indexer computes, in document order. -/
def indexerHeadingIds (content : List Char) : List (List Char) :=
  (extractHeadingsFromMarkdown content).map Heading.id

/-- `element.getBoundingClientRect().top <= 200` for the anchor of `id`,
with `none` modelling a missing element (`if (!element) continue`). -/
def topLE200 (top : List Char → Option Int) (id : List Char) : Bool :=
  match top id with
  | some t => decide (t ≤ 200)
  | none => false

/-- The `for (let i = headings.length - 1; i >= 0; i--)` loop of
`handleScroll`, acting on the reversed heading list: the first entry (from
the end) whose element exists and sits at most 200px from the viewport top. -/
def scanFromEnd (top : List Char → Option Int) : List (List Char) → Option (List Char)
  | [] => none
  | id :: rest => if topLE200 top id then some id else scanFromEnd top rest

/-- `handleScroll` from `Right.sidebar.jsx` lines 52–74: with no headings it
returns early; otherwise `currentActive` starts as the previous active id and
is overwritten by the bottom-most heading whose top offset is ≤ 200px. -/
def handleScroll (headings : List (List Char)) (top : List Char → Option Int)
    (active : Option (List Char)) : Option (List Char) :=
  if headings = [] then active
  else
    match scanFromEnd top headings.reverse with
    | some id => some id
    | none => active

/-- The `setInterval` retry loop of `handleHeadingClick`: on each tick
`retries++`, the element is looked up again, and the loop stops when the
element is found or `retries > 5`.  `present n` tells whether
`document.getElementById(id)` succeeds on the `n`-th lookup (`n = 0` is the
lookup made before the interval starts).  Returns the tick on which the
element was found, if any. -/
def retryLoop (present : Nat → Bool) (retries : Nat) : Option Nat :=
  if present (retries + 1) then some (retries + 1)
  else if h : 5 < retries + 1 then none
  else retryLoop present (retries + 1)
termination_by 6 - retries
decreasing_by omega

/-- `handleHeadingClick` element resolution: immediate lookup, then the
retry loop.  Returns the lookup index on which the element was found. -/
def handleHeadingClickFound (present : Nat → Bool) : Option Nat :=
  if present 0 then some 0 else retryLoop present 0

/-- Observable outcome of a navigation call: the active-heading state after
the call, and whether `scrollIntoView` was invoked. -/
structure NavOutcome where
  active : Option (List Char)
  scrolled : Bool
deriving DecidableEq, Repr

/-- `handleHeadingClick(id)` from `Right.sidebar.jsx` lines 76–102: if the
element is found (immediately or by the retry loop) the handler sets the
active heading to `id` and scrolls the element into view; otherwise it gives
up silently, leaving the state unchanged. -/
def navigateTo (present : Nat → Bool) (id : List Char) (active : Option (List Char)) :
    NavOutcome :=
  match handleHeadingClickFound present with
  | some _ => ⟨some id, true⟩
  | none => ⟨active, false⟩

/-- `fileNameMap` from `mark.down.js`: `{ 'introduction': 'Intro.md' }`. -/
def fileNameMap (topic : List Char) : Option (List Char) :=
  if topic = "introduction".toList then some ("Intro.md".toList) else none

/-- `path.join` on two segments. -/
def joinPath (a b : List Char) : List Char := a ++ '/' :: b

/-- `contentDirectory`, with the `process.cwd()` prefix abstracted away (it
is a common prefix of every path handed to the file-system oracle). -/
def contentDirectory : List Char := "src/app/content".toList

/-- The `fullPath` computed by `getMarkdownContent`. -/
def markdownFullPath (level topic : List Char) : List Char :=
  joinPath (joinPath contentDirectory level)
    ((fileNameMap topic).getD (topic ++ ".md".toList))

/-- Result object `{ content, frontmatter: data }` of `getMarkdownContent`. -/
structure MarkdownResult (β : Type) where
  content : List Char
  frontmatter : β
deriving DecidableEq, Repr

/-- `getMarkdownContent(level, topic)` from `mark.down.js` lines 12–27.  The
external collaborators are oracles: `readFileSync path` is `none` when
`fs.readFileSync` throws, and `matter raw` is `none` when front-matter
parsing throws, returning `(data, content)` otherwise.  The `try/catch`
wraps both calls and turns any failure into `null`. -/
def getMarkdownContent {β : Type} (readFileSync : List Char → Option (List Char))
    (matter : List Char → Option (β × List Char)) (level topic : List Char) :
    Option (MarkdownResult β) :=
  match readFileSync (markdownFullPath level topic) with
  | none => none
  | some fileContents =>
    match matter fileContents with
    | none => none
    | some (data, content) => some ⟨content, data⟩

/-- Rendered top offsets for a scroll-tracking scenario: heading `a` at
50px, `b` at 150px, `c` at 400px. -/
def exTop3 (id : List Char) : Option Int :=
  if id = "a".toList then some 50
  else if id = "b".toList then some 150
  else if id = "c".toList then some 400
  else none

/-- An element-appearance schedule where `document.getElementById` succeeds
only on the sixth retry lookup. -/
def exPresent6 (n : Nat) : Bool := n == 6

/-! ### General lemmas about the embedded definitions -/

theorem filter_false_of {α : Type} (p : α → Bool) :
    ∀ l : List α, (∀ c ∈ l, p c = false) → l.filter p = [] := by
  intro l
  induction l with
  | nil => intro _; rfl
  | cons a as ih =>
    intro h
    simp only [List.filter_cons, h a (List.mem_cons_self a as)]
    exact ih (fun c hc => h c (List.mem_cons_of_mem a hc))

theorem takeWhile_hash_replicate (k : Nat) (t : List Char) :
    ((List.replicate k '#' ++ t).takeWhile (fun c => c == '#')) =
      List.replicate k '#' ++ t.takeWhile (fun c => c == '#') := by
  induction k with
  | zero => simp
  | succ n ih => simp [List.replicate_succ, List.takeWhile_cons, ih]

theorem dropWhile_hash_replicate (k : Nat) (t : List Char) :
    ((List.replicate k '#' ++ t).dropWhile (fun c => c == '#')) =
      t.dropWhile (fun c => c == '#') := by
  induction k with
  | zero => simp
  | succ n ih => simp [List.replicate_succ, List.dropWhile_cons, ih]

theorem isWs_ne_hash {c : Char} (h : isWs c = true) : (c == '#') = false := by
  simp only [isWs, Bool.or_eq_true, beq_iff_eq] at h
  rcases h with ((((h | h) | h) | h) | h) | h <;> subst h <;> decide

theorem dropWhile_ws_append (ws t : List Char) (h : ∀ c ∈ ws, isWs c = true) :
    ((ws ++ t).dropWhile isWs) = t.dropWhile isWs := by
  induction ws with
  | nil => simp
  | cons a as ih =>
    have ha : isWs a = true := h a (List.mem_cons_self a as)
    simp only [List.cons_append, List.dropWhile_cons, ha, if_true]
    exact ih (fun c hc => h c (List.mem_cons_of_mem a hc))

theorem isWs_of_lineTerm {c : Char} (h : isLineTerm c = true) : isWs c = true := by
  simp only [isLineTerm, Bool.or_eq_true, beq_iff_eq] at h
  rcases h with h | h <;> subst h <;> decide

theorem tryMatch_heading_line (k : Nat) (hk1 : 1 ≤ k) (hk4 : k ≤ 4)
    (w0 : Char) (wrest : List Char) (hws : ∀ c ∈ w0 :: wrest, isWs c = true)
    (lc : Char) (lrest : List Char) (hlc : isWs lc = false)
    (hnl : ∀ c ∈ lc :: lrest, isLineTerm c = false) :
    tryMatch (List.replicate k '#' ++ (w0 :: wrest) ++ lc :: lrest) =
      some (k, lc :: lrest, []) := by
  have hw0 : isWs w0 = true := hws w0 (List.mem_cons_self w0 wrest)
  have hassoc : List.replicate k '#' ++ (w0 :: wrest) ++ lc :: lrest
      = List.replicate k '#' ++ (w0 :: (wrest ++ lc :: lrest)) := by simp
  have htake : ((List.replicate k '#' ++ (w0 :: (wrest ++ lc :: lrest))).takeWhile
      (fun c => c == '#')) = List.replicate k '#' := by
    rw [takeWhile_hash_replicate]
    simp [List.takeWhile_cons, isWs_ne_hash hw0]
  have hdrop : ((List.replicate k '#' ++ (w0 :: (wrest ++ lc :: lrest))).dropWhile
      (fun c => c == '#')) = w0 :: (wrest ++ lc :: lrest) := by
    rw [dropWhile_hash_replicate]
    simp [List.dropWhile_cons, isWs_ne_hash hw0]
  have hdropws : ((w0 :: (wrest ++ lc :: lrest)).dropWhile isWs) = lc :: lrest := by
    have h1 : ((w0 :: wrest) ++ lc :: lrest).dropWhile isWs = (lc :: lrest).dropWhile isWs :=
      dropWhile_ws_append (w0 :: wrest) (lc :: lrest) hws
    simp only [List.cons_append] at h1
    rw [h1]
    simp [List.dropWhile_cons, hlc]
  have htext : ((lc :: lrest).takeWhile (fun c => !(isLineTerm c))) = lc :: lrest :=
    List.takeWhile_eq_self_iff.mpr (by
      intro c hc
      simp only [Bool.not_eq_true']
      exact hnl c hc)
  have hrest : ((lc :: lrest).dropWhile (fun c => !(isLineTerm c))) = [] :=
    List.dropWhile_eq_nil_iff.mpr (by
      intro c hc
      simp only [Bool.not_eq_true']
      exact hnl c hc)
  rw [hassoc]
  unfold tryMatch
  simp only [htake, hdrop, List.length_replicate]
  rw [if_pos ⟨hk1, hk4⟩]
  simp only [hw0, if_true, hdropws, htext, hrest]

theorem tryMatch_nil : tryMatch [] = none := rfl

theorem scanHeadingsAux_nil (fuel : Nat) : scanHeadingsAux fuel [] = [] := by
  cases fuel with
  | zero => rfl
  | succ n => rfl

theorem scanHeadings_single (s : List Char) (k : Nat) (t : List Char)
    (hm : tryMatch s = some (k, t, [])) (hne : s ≠ []) :
    scanHeadings s = [(k, t)] := by
  unfold scanHeadings
  cases s with
  | nil => exact absurd rfl hne
  | cons a as =>
    simp only [List.length_cons, scanHeadingsAux, hm]
    simp [dropLine, scanHeadingsAux_nil]

theorem scanFromEnd_eq (top : List Char → Option Int) :
    ∀ l : List (List Char), scanFromEnd top l = (l.filter (topLE200 top)).head? := by
  intro l
  induction l with
  | nil => rfl
  | cons a as ih =>
    by_cases h : topLE200 top a
    · simp [scanFromEnd, List.filter_cons, h]
    · simp [scanFromEnd, List.filter_cons, h, ih]

theorem handleScroll_char (headings : List (List Char)) (top : List Char → Option Int)
    (active : Option (List Char)) :
    handleScroll headings top active =
      ((headings.filter (topLE200 top)).getLast?).elim active some := by
  unfold handleScroll
  rw [scanFromEnd_eq, List.filter_reverse, List.head?_reverse]
  by_cases h : headings = []
  · subst h; simp
  · rw [if_neg h]
    cases (headings.filter (topLE200 top)).getLast? <;> rfl

theorem retryLoop_eq_none (present : Nat → Bool) :
    ∀ (j retries : Nat), retries + j = 5 →
      (retryLoop present retries = none ↔
        ∀ n, retries < n → n ≤ 6 → present n = false) := by
  intro j
  induction j with
  | zero =>
    intro retries h
    have h5 : retries = 5 := by omega
    subst h5
    rw [retryLoop]
    by_cases h6 : present 6
    · simp only [h6, if_true]
      constructor
      · intro hc; exact absurd hc (by simp)
      · intro hall
        have := hall 6 (by omega) (by omega)
        rw [h6] at this
        exact absurd this (by simp)
    · simp only [h6, Bool.false_eq_true, if_false]
      rw [dif_pos (by omega)]
      constructor
      · intro _ n hn1 hn2
        have hn : n = 6 := by omega
        subst hn
        exact Bool.eq_false_iff.mpr h6
      · intro _; rfl
  | succ j ih =>
    intro retries h
    rw [retryLoop]
    by_cases hp : present (retries + 1)
    · simp only [hp, if_true]
      constructor
      · intro hc; exact absurd hc (by simp)
      · intro hall
        have := hall (retries + 1) (by omega) (by omega)
        rw [hp] at this
        exact absurd this (by simp)
    · simp only [hp, Bool.false_eq_true, if_false]
      rw [dif_neg (by omega)]
      rw [ih (retries + 1) (by omega)]
      constructor
      · intro hall n hn1 hn2
        by_cases hn : n = retries + 1
        · subst hn; exact Bool.eq_false_iff.mpr hp
        · exact hall n (by omega) hn2
      · intro hall n hn1 hn2
        exact hall n (by omega) hn2

theorem handleFound_eq_none (present : Nat → Bool) :
    handleHeadingClickFound present = none ↔ ∀ n, n ≤ 6 → present n = false := by
  unfold handleHeadingClickFound
  by_cases h0 : present 0
  · simp only [h0, if_true]
    constructor
    · intro hc; exact absurd hc (by simp)
    · intro hall
      have := hall 0 (by omega)
      rw [h0] at this
      exact absurd this (by simp)
  · simp only [h0, Bool.false_eq_true, if_false]
    rw [retryLoop_eq_none present 5 0 (by omega)]
    constructor
    · intro hall n hn
      by_cases hz : n = 0
      · subst hz; exact Bool.eq_false_iff.mpr h0
      · exact hall n (by omega) hn
    · intro hall n hn1 hn2
      exact hall n hn2

theorem mem_collapseAux :
    ∀ (l : List Char) (b : Bool) (c : Char), c ∈ collapseAux b l → c ∈ l ∨ c = '-' := by
  intro l
  induction l with
  | nil => intro b c h; simp [collapseAux] at h
  | cons a as ih =>
    intro b c h
    simp only [collapseAux] at h
    by_cases ha : (a == '-') = true
    · rw [ha] at h
      cases b with
      | true =>
        simp only [if_true] at h
        rcases ih true c h with hm | he
        · exact Or.inl (List.mem_cons_of_mem a hm)
        · exact Or.inr he
      | false =>
        simp only [if_true] at h
        rcases List.mem_cons.mp h with he | hm
        · exact Or.inr he
        · rcases ih true c hm with hm' | he'
          · exact Or.inl (List.mem_cons_of_mem a hm')
          · exact Or.inr he'
    · rw [Bool.eq_false_iff.mpr ha] at h
      simp only [Bool.false_eq_true, if_false] at h
      rcases List.mem_cons.mp h with he | hm
      · rw [he]; exact Or.inl (List.mem_cons_self a as)
      · rcases ih false c hm with hm' | he'
        · exact Or.inl (List.mem_cons_of_mem a hm')
        · exact Or.inr he'

theorem isWordChar_of_upper {c : Char} (h1 : 'A' ≤ c) (h2 : c ≤ 'Z') :
    isWordChar c = true := by
  unfold isWordChar
  rw [decide_eq_true h1, decide_eq_true h2]
  simp

theorem jsToLower_self {c : Char} (h : isWordChar c = false) : jsToLower c = c := by
  unfold jsToLower
  rw [if_neg]
  intro hc
  rw [isWordChar_of_upper hc.1 hc.2] at h
  exact absurd h (by simp)

theorem map_jsToLower_self (l : List Char) (h : ∀ c ∈ l, isWordChar c = false) :
    l.map jsToLower = l := by
  induction l with
  | nil => rfl
  | cons a as ih =>
    rw [List.map_cons, jsToLower_self (h a (List.mem_cons_self a as)),
      ih (fun c hc => h c (List.mem_cons_of_mem a hc))]

theorem dropWhile_not_ws (l : List Char) (h : ∀ c ∈ l, isWs c = false) :
    l.dropWhile isWs = l := by
  cases l with
  | nil => rfl
  | cons a as => simp [List.dropWhile_cons, h a (List.mem_cons_self a as)]

theorem jsTrim_self (l : List Char) (h : ∀ c ∈ l, isWs c = false) : jsTrim l = l := by
  unfold jsTrim
  rw [dropWhile_not_ws l h]
  rw [dropWhile_not_ws l.reverse (fun c hc => h c (List.mem_reverse.mp hc))]
  exact List.reverse_reverse l

theorem replaceWsRuns_self : ∀ l : List Char, (∀ c ∈ l, isWs c = false) → replaceWsRuns l = l := by
  intro l
  induction l with
  | nil => intro _; rfl
  | cons a as ih =>
    intro h
    have ha : isWs a = false := h a (List.mem_cons_self a as)
    cases as with
    | nil => simp [replaceWsRuns, ha]
    | cons b bs =>
      have hrest := ih (fun c hc => h c (List.mem_cons_of_mem a hc))
      simp [replaceWsRuns, ha, hrest]

theorem slugify_eq_nil_of_symbols (l : List Char)
    (h : ∀ c ∈ l, isWordChar c = false ∧ (c == '-') = false ∧ isWs c = false) :
    slugify l = [] := by
  unfold slugify
  rw [map_jsToLower_self l (fun c hc => (h c hc).1)]
  rw [jsTrim_self l (fun c hc => (h c hc).2.2)]
  rw [replaceWsRuns_self l (fun c hc => (h c hc).2.2)]
  have hrem : removeNonWord l = [] := by
    unfold removeNonWord
    exact filter_false_of _ l (fun c hc => by
      rw [(h c hc).1, (h c hc).2.1]; rfl)
  rw [hrem]
  rfl

/-! ### The claims -/

/-- C1.  The claim states that for every document the renderer assigns its
rendered h1–h4 elements exactly the ids the Heading Indexer computed, i.e.
that the two slug derivations are the same function of the document text.
The code violates this: on a document with two headings titled `Overview`,
the indexer (which applies `slugify` with no collision bookkeeping) computes
`overview, overview`, while the renderer (whose `headingIds` map is keyed by
heading text, so the second occurrence's disambiguated id overwrites the
first) assigns `overview-1` to both rendered elements.  This theorem
evaluates both derivations at that document and shows they disagree. -/
theorem c1_renderer_indexer_id_mismatch :
    rendererHeadingIds ("# Overview\n# Overview".toList) =
      ["overview-1".toList, "overview-1".toList] ∧
    indexerHeadingIds ("# Overview\n# Overview".toList) =
      ["overview".toList, "overview".toList] ∧
    rendererHeadingIds ("# Overview\n# Overview".toList) ≠
      indexerHeadingIds ("# Overview\n# Overview".toList) := by
  refine ⟨by decide, by decide, by decide⟩

/-- C2.  The claim states that `extractHeadings` keeps a per-base-slug
counter so that duplicate base slugs get `-1`, `-2`, … suffixes and no two
entries share an id; in particular two `Overview` headings should yield
`overview` then `overview-1`.  The code has no such counter: both entries
get id `overview`, so the returned list has a duplicated id. -/
theorem c2_duplicate_headings_share_id :
    (extractHeadingsFromMarkdown ("# Overview\n# Overview".toList)).map Heading.id =
      ["overview".toList, "overview".toList] ∧
    (extractHeadingsFromMarkdown ("# Overview\n# Overview".toList)).map Heading.id ≠
      ["overview".toList, "overview-1".toList] := by
  refine ⟨by decide, by decide⟩

/-- C3.  `onScroll` scans the heading list from last entry to first and
activates the first heading of that scan whose top offset is ≤ 200px —
equivalently, the last heading in document order satisfying the threshold;
when none qualifies the previous active id is kept.  In particular, for
`[a, b, c]` with `b` at 150px and `c` at 400px the active id becomes `b`. -/
theorem c3_scroll_picks_last_heading_above_threshold :
    (∀ (headings : List (List Char)) (top : List Char → Option Int)
        (active : Option (List Char)),
      handleScroll headings top active =
        ((headings.filter (topLE200 top)).getLast?).elim active some) ∧
    handleScroll ["a".toList, "b".toList, "c".toList] exTop3 (some ("a".toList)) =
      some ("b".toList) := by
  constructor
  · exact handleScroll_char
  · decide

/-- C4, counterexample.  The claim says `navigateTo` polls at most 5
additional times and, when the element never appears within those retries,
completes with the state unchanged.  With an element that appears only on
the sixth retry lookup (so it is absent on the initial lookup and on retries
1–5), the handler still navigates: the stopping tick `retries > 5` re-queries
the element one more time and uses it when found. -/
theorem c4_counterexample_sixth_retry_navigates :
    (∀ n, n ≤ 5 → exPresent6 n = false) ∧
    navigateTo exPresent6 ("c".toList) none = ⟨some ("c".toList), true⟩ := by
  constructor
  · decide
  · have h5 : retryLoop exPresent6 5 = some 6 := by
      rw [retryLoop]; norm_num [exPresent6]
    have h4 : retryLoop exPresent6 4 = some 6 := by
      rw [retryLoop]; norm_num [exPresent6, h5]
    have h3 : retryLoop exPresent6 3 = some 6 := by
      rw [retryLoop]; norm_num [exPresent6, h4]
    have h2 : retryLoop exPresent6 2 = some 6 := by
      rw [retryLoop]; norm_num [exPresent6, h3]
    have h1 : retryLoop exPresent6 1 = some 6 := by
      rw [retryLoop]; norm_num [exPresent6, h2]
    have h0 : retryLoop exPresent6 0 = some 6 := by
      rw [retryLoop]; norm_num [exPresent6, h1]
    unfold navigateTo handleHeadingClickFound
    norm_num [exPresent6, h0]

/-- C4, amended.  `handleHeadingClick(id)` re-queries the element on the
initial call and on up to six interval ticks (the retry counter runs 1..6,
the loop stopping once it exceeds 5, with the element looked up once more on
the stopping tick): the handler sets the active heading to `id` and scrolls
exactly when the element is present on one of lookups 0–6, and otherwise
completes with the state unchanged, no scroll and no error. -/
theorem c4_amended_retry_budget_six :
    ∀ (present : Nat → Bool) (id : List Char) (active : Option (List Char)),
      navigateTo present id active =
        if (List.range 7).any present then ⟨some id, true⟩ else ⟨active, false⟩ := by
  intro present id active
  unfold navigateTo
  by_cases h : (List.range 7).any present = true
  · rw [if_pos h]
    rcases hf : handleHeadingClickFound present with _ | m
    · exfalso
      obtain ⟨n, hn, hp⟩ := List.any_eq_true.mp h
      have hle : n ≤ 6 := by
        have := List.mem_range.mp hn
        omega
      have := (handleFound_eq_none present).mp hf n hle
      rw [hp] at this
      exact absurd this (by simp)
    · rfl
  · rw [if_neg h]
    have hnone : handleHeadingClickFound present = none := by
      rw [handleFound_eq_none]
      intro n hn
      cases hpn : present n with
      | false => rfl
      | true =>
        exact absurd (List.any_eq_true.mpr ⟨n, List.mem_range.mpr (by omega), hpn⟩) h
    rw [hnone]

/-- C5.  `slugify` lowercases, trims, turns whitespace runs into single
hyphens, strips every character that is neither a word character nor a
hyphen, and collapses hyphen runs; in particular
`slugify("  $in and $nin Operators  ") = "in-and-nin-operators"`, and every
character of any slug is a word character or a hyphen. -/
theorem c5_slugify_pipeline :
    slugify ("  $in and $nin Operators  ".toList) = "in-and-nin-operators".toList ∧
    ∀ (l : List Char) (c : Char), c ∈ slugify l → (isWordChar c = true ∨ c = '-') := by
  constructor
  · decide
  · intro l c hc
    unfold slugify collapseHyphens removeNonWord at hc
    rcases mem_collapseAux _ false c hc with hm | he
    · have hp := (List.mem_filter.mp hm).2
      simp only [Bool.or_eq_true, beq_iff_eq] at hp
      rcases hp with hw | hh
      · exact Or.inl hw
      · exact Or.inr hh
    · exact Or.inr he

theorem c5_slugify_pipeline_witness :
    'i' ∈ slugify ("in".toList) ∧ (isWordChar 'i' = true ∨ 'i' = '-') :=
  ⟨by decide, c5_slugify_pipeline.2 ("in".toList) 'i' (by decide)⟩

/-- C6, counterexample.  The claim says the `text` of a recognized heading
line is the remainder of the line trimmed of surrounding whitespace.  On the
line `"# foo "` the extractor records text `"foo "`: the separator `\s+`
consumes the leading whitespace, but `(.+)$` keeps the trailing space, so the
text is not equal to its trimmed form. -/
theorem c6_counterexample_trailing_whitespace_kept :
    (extractHeadingsFromMarkdown ("# foo ".toList)).map Heading.text = ["foo ".toList] ∧
    jsTrim ("foo ".toList) ≠ "foo ".toList := by
  refine ⟨by decide, by decide⟩

/-- C6, amended.  For every line made of 1–4 `#` markers, a nonempty
whitespace separator, and a label that starts with a non-whitespace
character and contains no line terminator (no line feed and no carriage
return), the extracted entry has `level` equal to the marker count and
`text` equal to the label exactly as written: the whitespace between the
markers and the label is consumed, but trailing whitespace of the label is
preserved (the text is not trimmed). -/
theorem c6_amended_level_and_untrimmed_text (k : Nat) (hk1 : 1 ≤ k) (hk4 : k ≤ 4)
    (w0 : Char) (wrest : List Char) (hws : ∀ c ∈ w0 :: wrest, isWs c = true)
    (lc : Char) (lrest : List Char) (hlc : isWs lc = false)
    (hnl : ∀ c ∈ lc :: lrest, isLineTerm c = false) :
    extractHeadingsFromMarkdown (List.replicate k '#' ++ (w0 :: wrest) ++ lc :: lrest) =
      [⟨slugify (lc :: lrest), lc :: lrest, k⟩] := by
  have hm := tryMatch_heading_line k hk1 hk4 w0 wrest hws lc lrest hlc hnl
  have hne : List.replicate k '#' ++ (w0 :: wrest) ++ lc :: lrest ≠ [] := by simp
  have hscan := scanHeadings_single _ k (lc :: lrest) hm hne
  unfold extractHeadingsFromMarkdown
  rw [hscan]
  rfl

theorem c6_amended_level_and_untrimmed_text_witness :
    extractHeadingsFromMarkdown (List.replicate 1 '#' ++ [' '] ++ 'f' :: "oo ".toList) =
      [⟨slugify ('f' :: "oo ".toList), 'f' :: "oo ".toList, 1⟩] :=
  c6_amended_level_and_untrimmed_text 1 (by decide) (by decide) ' ' [] (by decide)
    'f' ("oo ".toList) (by decide) (by decide)

/-- C7.  When the heading list is non-empty and no heading's anchor sits at
or above the 200px threshold (in particular when the reader is above the
first heading), `handleScroll` leaves the active heading exactly as it was:
it is never cleared. -/
theorem c7_scroll_above_threshold_keeps_active (headings : List (List Char))
    (top : List Char → Option Int) (active : Option (List Char))
    (_hne : headings ≠ []) (hnone : ∀ id ∈ headings, topLE200 top id = false) :
    handleScroll headings top active = active := by
  rw [handleScroll_char]
  rw [filter_false_of (topLE200 top) headings hnone]
  rfl

theorem c7_scroll_above_threshold_keeps_active_witness :
    (["a".toList] ≠ ([] : List (List Char))) ∧
    handleScroll ["a".toList] (fun _ => some 300) (some ("x".toList)) = some ("x".toList) :=
  ⟨by decide,
   c7_scroll_above_threshold_keeps_active ["a".toList] (fun _ => some 300)
     (some ("x".toList)) (by decide) (by decide)⟩

/-- C8.  `extractHeadings` is a pure function of the document text: calling
it twice on the same unchanged text yields identical output (the function
allocates its regex and its accumulator locally, so in the embedding the
determinism is definitional). -/
theorem c8_extract_deterministic :
    ∀ md : List Char, extractHeadingsFromMarkdown md = extractHeadingsFromMarkdown md :=
  fun _ => rfl

/-- C9, counterexample.  The claim says every heading whose label contains
no word characters gets the empty string as id.  The label `"-"` contains no
word characters, yet its id is `"-"`: hyphens survive `slugify`, so the id
is only empty when the label also contains no hyphens (and no internal
whitespace, which would be turned into hyphens). -/
theorem c9_counterexample_hyphen_label :
    extractHeadingsFromMarkdown ("# -".toList) = [⟨"-".toList, "-".toList, 1⟩] ∧
    "-".toList ≠ ([] : List Char) := by
  refine ⟨by decide, by decide⟩

/-- C9, amended.  For every heading line whose label consists of characters
that are not word characters, not hyphens and not whitespace (for example a
label of `$` signs), `extractHeadings` still emits an entry for the line and
its id is the empty string; there is no positional fallback identifier. -/
theorem c9_amended_symbol_label_empty_id (k : Nat) (hk1 : 1 ≤ k) (hk4 : k ≤ 4)
    (w0 : Char) (wrest : List Char) (hws : ∀ c ∈ w0 :: wrest, isWs c = true)
    (lc : Char) (lrest : List Char)
    (hsym : ∀ c ∈ lc :: lrest, isWordChar c = false ∧ (c == '-') = false ∧ isWs c = false) :
    extractHeadingsFromMarkdown (List.replicate k '#' ++ (w0 :: wrest) ++ lc :: lrest) =
      [⟨[], lc :: lrest, k⟩] := by
  have hlc : isWs lc = false := (hsym lc (List.mem_cons_self lc lrest)).2.2
  have hnl : ∀ c ∈ lc :: lrest, isLineTerm c = false := by
    intro c hc
    cases ht : isLineTerm c with
    | false => rfl
    | true =>
      have hwf : isWs c = false := (hsym c hc).2.2
      rw [isWs_of_lineTerm ht] at hwf
      exact absurd hwf (by simp)
  have h6 := c6_amended_level_and_untrimmed_text k hk1 hk4 w0 wrest hws lc lrest hlc hnl
  rw [h6, slugify_eq_nil_of_symbols (lc :: lrest) hsym]

theorem c9_amended_symbol_label_empty_id_witness :
    extractHeadingsFromMarkdown (List.replicate 3 '#' ++ [' '] ++ '$' :: "$$".toList) =
      [⟨[], '$' :: "$$".toList, 3⟩] :=
  c9_amended_symbol_label_empty_id 3 (by decide) (by decide) ' ' [] (by decide)
    '$' ("$$".toList) (by decide)

/-- C10.  `getMarkdownContent(level, topic)` never throws: whatever the
file-system and front-matter oracles do, it returns `null` when reading the
content file fails or when front-matter parsing fails, and on success it
returns the object `{ content, frontmatter: data }`. -/
theorem c10_getMarkdownContent_total :
    ∀ (β : Type) (readFileSync : List Char → Option (List Char))
      (matter : List Char → Option (β × List Char)) (level topic : List Char),
      (readFileSync (markdownFullPath level topic) = none →
        getMarkdownContent readFileSync matter level topic = none) ∧
      (∀ raw, readFileSync (markdownFullPath level topic) = some raw →
        matter raw = none →
        getMarkdownContent readFileSync matter level topic = none) ∧
      (∀ raw d c, readFileSync (markdownFullPath level topic) = some raw →
        matter raw = some (d, c) →
        getMarkdownContent readFileSync matter level topic = some ⟨c, d⟩) := by
  intro β readFileSync matter level topic
  refine ⟨?_, ?_, ?_⟩
  · intro h
    simp [getMarkdownContent, h]
  · intro raw h1 h2
    simp [getMarkdownContent, h1, h2]
  · intro raw d c h1 h2
    simp [getMarkdownContent, h1, h2]

theorem c10_getMarkdownContent_total_witness :
    getMarkdownContent (fun _ => some ("raw".toList))
      (fun _ => some (("t".toList : List Char), "body".toList))
      ("basic".toList) ("Intro".toList) =
      some ⟨"body".toList, "t".toList⟩ :=
  (c10_getMarkdownContent_total (List Char) (fun _ => some ("raw".toList))
      (fun _ => some (("t".toList : List Char), "body".toList))
      ("basic".toList) ("Intro".toList)).2.2
    ("raw".toList) ("t".toList) ("body".toList) rfl rfl
